import Mathlib

/-!
Verification of the SQL importer / generator core of the db-er-design
repository, against its natural-language specification.

The importer (`client/src/lib/sql-importer.ts`) is embedded as executable
Lean functions over `List Char`, mirroring the JS regex and scanner logic
construct by construct.  The data model follows
`client/src/lib/schema-types.ts`.  The schema store mutations
(`use-schema-store.ts`, richer variant) are embedded as a step function on
an explicit state.  JS `uuidv4()` / `crypto.randomUUID()` calls are
modelled by a fresh-counter supply threaded through the functions: each
allocation returns the current counter as the id, which preserves the
identity structure (the claims treat ids as opaque).
-/

set_option maxRecDepth 20000
set_option synthInstance.maxSize 2000

namespace SqlDesign

/-! ### Character and string utilities (JS semantics) -/

/-- The whitespace characters relevant to the inputs at hand
(JS `\s` and `String.trim` additionally cover exotic Unicode spaces,
which never occur in the SQL text handled here). -/
def isWsChar (c : Char) : Bool := c = ' ' || c = '\t' || c = '\n' || c = '\r'

/-- ASCII lowercasing, as JS `toLowerCase` acts on the ASCII identifiers here. -/
def lowerChar (c : Char) : Char :=
  if 'A' ≤ c && c ≤ 'Z' then Char.ofNat (c.toNat + 32) else c

def lowerL (l : List Char) : List Char := l.map lowerChar

/-- JS `String.prototype.trim`. -/
def trimL (l : List Char) : List Char :=
  ((l.dropWhile isWsChar).reverse.dropWhile isWsChar).reverse

/-- The backquote character (ASCII 96). -/
def backquote : Char := Char.ofNat 96

/-- The single-quote character (ASCII 39). -/
def singleQuote : Char := Char.ofNat 39

/-- The backslash character (ASCII 92). -/
def backslash : Char := Char.ofNat 92

/-- `startsWithL l p` = the list `l` starts with the pattern `p`. -/
def startsWithL : List Char → List Char → Bool
  | _, [] => true
  | [], _ :: _ => false
  | c :: cs, d :: ds => c = d && startsWithL cs ds

/-- JS `"…".split(sep)` for a single-character separator (used for `;` and `.`). -/
def splitOnCharGo (sep : Char) : List Char → List Char → List (List Char)
  | [], buf => [buf.reverse]
  | c :: rest, buf =>
    if c = sep then buf.reverse :: splitOnCharGo sep rest []
    else splitOnCharGo sep rest (c :: buf)

def splitOnChar (sep : Char) (l : List Char) : List (List Char) :=
  splitOnCharGo sep l []

/-! ### Data model (`schema-types.ts`) -/

/-- Ids (`uuid` strings in the source) are opaque; modelled as naturals. -/
abbrev Id := Nat

/-- `columnTypes` from `schema-types.ts`. -/
def columnTypes : List String :=
  ["uuid", "integer", "serial", "text", "varchar", "char", "boolean",
   "timestamp", "timestamptz", "date", "time", "interval", "json", "jsonb",
   "real", "double precision", "numeric", "bigint", "enum"]

structure Column where
  id : Id
  name : String
  type : String
  isPrimaryKey : Bool
  isNotNull : Bool
  isUnique : Bool
deriving Repr, DecidableEq

structure Pos where
  x : Int
  y : Int
deriving Repr, DecidableEq

structure Table where
  id : Id
  name : String
  columns : List Column
  position : Pos
deriving Repr, DecidableEq

structure Relation where
  id : Id
  fromTableId : Id
  fromColumnId : Id
  toTableId : Id
  toColumnId : Id
  type : String
deriving Repr, DecidableEq

structure DatabaseSchema where
  tables : List Table
  relations : List Relation
deriving Repr, DecidableEq

structure ParsedForeignKey where
  fromTableName : String
  fromColumnName : String
  toTableName : String
  toColumnName : String
deriving Repr, DecidableEq

/-! ### `stripSqlComments`

The source first removes block comments with a global lazy regex, then
line comments with a global multiline `"--"` -to-end-of-line regex.
The block-comment pass removes, left to right, each `/ *`
that has a following `* /`, through the nearest such closing; a `/ *`
without any closing ahead is left untouched (and then nothing later can
match either).  The line-comment regex removes from `--` to the end of the
line (`.` does not cross line terminators). -/

/-- Scan past the closing `* /` of a block comment; `none` when no closing
exists. -/
def dropThroughClose : List Char → Option (List Char)
  | [] => none
  | [_] => none
  | a :: b :: rest =>
    if a = '*' && b = '/' then some rest else dropThroughClose (b :: rest)

/-- The scanners below recurse on a fuel argument initialised to the input
length; every step shortens the list by at least one character, so the
fuel never runs out before the list does and the zero-fuel fallback
(where the list is necessarily `[]`) returns exactly that empty rest. -/
def stripBlockGo : Nat → List Char → List Char
  | 0, l => l
  | _ + 1, [] => []
  | _ + 1, [c] => [c]
  | fuel + 1, a :: b :: rest =>
    if a = '/' && b = '*' then
      match dropThroughClose rest with
      | some r => stripBlockGo fuel r
      | none => a :: b :: rest
    else a :: stripBlockGo fuel (b :: rest)

def stripBlockComments (l : List Char) : List Char := stripBlockGo l.length l

/-- Drop the rest of the current line (exclusive of the terminator),
as the line-comment regex consumes (`.` stops at line terminators). -/
def dropLineRest (l : List Char) : List Char :=
  l.dropWhile (fun c => !(c = '\n' || c = '\r'))

def stripLineGo : Nat → List Char → List Char
  | 0, l => l
  | _ + 1, [] => []
  | _ + 1, [c] => [c]
  | fuel + 1, a :: b :: rest =>
    if a = '-' && b = '-' then stripLineGo fuel (dropLineRest rest)
    else a :: stripLineGo fuel (b :: rest)

def stripLineComments (l : List Char) : List Char := stripLineGo l.length l

def stripSqlComments (sql : List Char) : List Char :=
  stripLineComments (stripBlockComments sql)

/-! ### `unquoteIdentifier`, `normalizeTableName` -/

/-- JS `slice(1, -1)`: drop the first and the last character
(a one-character string yields the empty string, as in the source). -/
def sliceInner (l : List Char) : List Char := (l.drop 1).dropLast

def headIs (l : List Char) (c : Char) : Bool := l.head? = some c

def lastIs (l : List Char) (c : Char) : Bool := l.getLast? = some c

def unquoteIdentifier (value : List Char) : List Char :=
  let trimmed := trimL value
  if trimmed.isEmpty then trimmed
  else if (headIs trimmed '"' && lastIs trimmed '"')
       || (headIs trimmed backquote && lastIs trimmed backquote)
       || (headIs trimmed '[' && lastIs trimmed ']') then
    sliceInner trimmed
  else trimmed

/-- `cleaned.split(".").pop() || cleaned` followed by unquoting and
lowercasing; the `split` result is never empty, and a falsy (empty) last
segment falls back to the full cleaned name. -/
def normalizeTableName (rawName : List Char) : List Char :=
  let cleaned := trimL rawName
  let withoutSchema :=
    if cleaned.contains '.' then
      let lastSeg := (splitOnChar '.' cleaned).getLastD []
      if lastSeg.isEmpty then cleaned else lastSeg
    else cleaned
  lowerL (unquoteIdentifier withoutSchema)

/-! ### `splitTopLevelComma`

A character scan tracking parenthesis depth and single- and double-quote
state; a quote toggles its mode unless the previous raw character is a
backslash; parts are pushed trimmed and only if nonempty. -/

def sttcPush (parts : List (List Char)) (buffer : List Char) : List (List Char) :=
  let b := trimL buffer.reverse
  if b.isEmpty then parts else parts ++ [b]

/-- The loop state: previous raw character, parenthesis depth, quote
modes, current buffer (reversed), pushed parts. -/
structure SttcState where
  prev : Option Char
  depth : Nat
  inSingle : Bool
  inDouble : Bool
  buffer : List Char
  parts : List (List Char)
deriving Repr, DecidableEq

/-- One iteration of the character loop. -/
def sttcStep (st : SttcState) (ch : Char) : SttcState :=
  let isEsc := st.prev = some backslash
  let inS1 := if ch = singleQuote && !st.inDouble && !isEsc then !st.inSingle else st.inSingle
  let inD1 := if ch = '"' && !st.inSingle && !isEsc then !st.inDouble else st.inDouble
  let depth1 :=
    if !inS1 && !inD1 then
      if ch = '(' then st.depth + 1
      else if ch = ')' then st.depth - 1
      else st.depth
    else st.depth
  if ch = ',' && depth1 = 0 && !inS1 && !inD1 then
    ⟨some ch, depth1, inS1, inD1, [], sttcPush st.parts st.buffer⟩
  else
    ⟨some ch, depth1, inS1, inD1, ch :: st.buffer, st.parts⟩

def sttcInit : SttcState := ⟨none, 0, false, false, [], []⟩

def splitTopLevelComma (input : List Char) : List (List Char) :=
  let st := input.foldl sttcStep sttcInit
  sttcPush st.parts st.buffer

/-! ### `parseReferencedColumns` -/

/-- Leftmost match of a parenthesised group of at least one
non-close-paren character: the group of the first `(` that encloses one. -/
def grabGroup (l : List Char) : Option (List Char) :=
  let grp := l.takeWhile (· ≠ ')')
  if 1 ≤ grp.length && grp.length < l.length then some grp else none

def firstParenGroup : List Char → Option (List Char)
  | [] => none
  | c :: rest =>
    if c = '(' then
      match grabGroup rest with
      | some g => some g
      | none => firstParenGroup rest
    else firstParenGroup rest

def parseReferencedColumns (definition : List Char) : List (List Char) :=
  match firstParenGroup definition with
  | none => []
  | some grp => (splitTopLevelComma grp).map (fun nm => lowerL (unquoteIdentifier nm))

/-! ### `normalizeColumnType` -/

/-- JS `replace` of runs of whitespace by a single space. -/
def collapseWsGo : List Char → Bool → List Char
  | [], _ => []
  | c :: rest, inWs =>
    if isWsChar c then
      if inWs then collapseWsGo rest true else ' ' :: collapseWsGo rest true
    else c :: collapseWsGo rest false

def collapseWs (l : List Char) : List Char := collapseWsGo l false

def typeStartsWith (n : List Char) (p : String) : Bool := startsWithL n p.data

def normalizeColumnType (rawType : List Char) : List Char :=
  let normalized := collapseWs (lowerL (trimL rawType))
  if (columnTypes.map String.data).contains normalized then normalized
  else if typeStartsWith normalized "character varying" || typeStartsWith normalized "varchar"
       || typeStartsWith normalized "char" then "varchar".data
  else if typeStartsWith normalized "uuid" then "uuid".data
  else if typeStartsWith normalized "serial" || typeStartsWith normalized "bigserial"
       || typeStartsWith normalized "smallserial" then "serial".data
  else if typeStartsWith normalized "int" || typeStartsWith normalized "integer"
       || typeStartsWith normalized "bigint" || typeStartsWith normalized "smallint" then
    "integer".data
  else if typeStartsWith normalized "text" then "text".data
  else if typeStartsWith normalized "bool" then "boolean".data
  else if typeStartsWith normalized "timestamp" then "timestamp".data
  else if typeStartsWith normalized "date" then "date".data
  else if typeStartsWith normalized "jsonb" then "jsonb".data
  else if typeStartsWith normalized "json" then "json".data
  else if typeStartsWith normalized "real" || typeStartsWith normalized "float4" then "real".data
  else if typeStartsWith normalized "double precision" || typeStartsWith normalized "float8"
       || typeStartsWith normalized "decimal" || typeStartsWith normalized "numeric" then
    "double precision".data
  else "text".data

/-! ### `parseColumnDefinition`

The anchored name-and-remainder regex admits a double-quoted, backquoted,
bracketed or bare (`[a-zA-Z_][\w$]*`) identifier, at least one whitespace
character, and a nonempty remainder that must contain no line terminator
(the unflagged dot excludes them and the unflagged dollar anchors at the
very end). -/

/-- JS `\w`: ASCII letters, digits and underscore. -/
def wordChar (c : Char) : Bool :=
  ('a' ≤ c && c ≤ 'z') || ('A' ≤ c && c ≤ 'Z') || ('0' ≤ c && c ≤ '9') || c = '_'

/-- Match a quoted identifier alternative: opening char already seen,
body of at least one non-closing char, then the closing char; returns the
raw name (quotes included) and the rest. -/
def closeQuoted (openC closeC : Char) (rest : List Char) :
    Option (List Char × List Char) :=
  let nm := rest.takeWhile (· ≠ closeC)
  if 1 ≤ nm.length && nm.length < rest.length then
    some (openC :: (nm ++ [closeC]), rest.drop (nm.length + 1))
  else none

def matchIdent : List Char → Option (List Char × List Char)
  | [] => none
  | c :: rest =>
    if c = '"' then closeQuoted '"' '"' rest
    else if c = backquote then closeQuoted backquote backquote rest
    else if c = '[' then closeQuoted '[' ']' rest
    else if ('a' ≤ c && c ≤ 'z') || ('A' ≤ c && c ≤ 'Z') || c = '_' then
      let w := rest.takeWhile (fun d => wordChar d || d = '$')
      some (c :: w, rest.drop w.length)
    else none

/-- Length of the leading whitespace run. -/
def wsRun (l : List Char) : Nat := (l.takeWhile isWsChar).length

/-- Word boundary after a keyword: end of input or a non-word character. -/
def boundaryAfter : List Char → Bool
  | [] => true
  | c :: _ => !(wordChar c)

/-- Drop a literal word, comparing case-insensitively (the pattern word is
given in lowercase). -/
def dropLitCI (w : List Char) (l : List Char) : Option (List Char) :=
  if startsWithL (lowerL (l.take w.length)) w then some (l.drop w.length) else none

/-- Drop a mandatory whitespace run (`\s+`). -/
def dropWs1 (l : List Char) : Option (List Char) :=
  let n := wsRun l
  if n = 0 then none else some (l.drop n)

/-- Drop an optional whitespace run (`\s*`). -/
def dropWsStar (l : List Char) : List Char := l.dropWhile isWsChar

/-- Drop a mandatory non-whitespace run (`[^\s]+`). -/
def dropNonWs1 (l : List Char) : Option (List Char) :=
  let n := (l.takeWhile (fun c => !isWsChar c)).length
  if n = 0 then none else some (l.drop n)

/-- A keyword given as words joined by mandatory whitespace, matched at the
head of `l`, with a trailing word boundary. -/
def kwSeqHere : List Char → List (List Char) → Bool
  | l, [w] =>
    match dropLitCI w l with
    | some rest => boundaryAfter rest
    | none => false
  | l, w :: ws =>
    match dropLitCI w l with
    | some rest =>
      match dropWs1 rest with
      | some rest2 => kwSeqHere rest2 ws
      | none => false
    | none => false
  | _, [] => false

/-- The keyword alternation that terminates the raw type in a column
definition, in source order. -/
def columnKeywords : List (List (List Char)) :=
  [["primary".data, "key".data], ["not".data, "null".data], ["unique".data],
   ["default".data], ["references".data], ["constraint".data], ["check".data],
   ["generated".data], ["collate".data]]

def anyKwHere (l : List Char) : Bool := columnKeywords.any (kwSeqHere l)

/-- First index `q ≥ 1` at which a keyword starts with a whitespace
character directly before it; the regex match index is the start of that
whitespace run, and slicing there followed by `trim` equals taking `q`
characters and trimming. -/
def findCutGo : List Char → Char → Nat → Option Nat
  | [], _, _ => none
  | c :: rest, prev, q =>
    if isWsChar prev && anyKwHere (c :: rest) then some q
    else findCutGo rest c (q + 1)

def findKeywordCut : List Char → Option Nat
  | [] => none
  | c :: rest => findCutGo rest c 1

/-- Occurrence of a word-boundary-delimited keyword sequence anywhere in
`l` (the flag-presence regexes of the source). -/
def hasKwGo : List Char → List (List Char) → Bool
  | [], _ => false
  | c :: rest, kw => (!(wordChar c) && kwSeqHere rest kw) || hasKwGo rest kw

def hasKwSeq (l : List Char) (kw : List (List Char)) : Bool :=
  kwSeqHere l kw || hasKwGo l kw

def pkKw : List (List Char) := ["primary".data, "key".data]

def nnKw : List (List Char) := ["not".data, "null".data]

def uqKw : List (List Char) := ["unique".data]

def parseColumnDefinition (definition : List Char) (n : Nat) : Option Column × Nat :=
  let trimmed := trimL definition
  match matchIdent trimmed with
  | none => (none, n)
  | some (rawName, afterName) =>
    let k := wsRun afterName
    if k = 0 then (none, n)
    else
      let remainder := afterName.drop k
      if remainder.isEmpty then (none, n)
      else if remainder.any (fun c => c = '\n' || c = '\r') then (none, n)
      else
        let lowerRemainder := lowerL remainder
        let rawType :=
          match findKeywordCut lowerRemainder with
          | some q => trimL (remainder.take q)
          | none => trimL remainder
        (some {
          id := n
          name := ⟨lowerL (unquoteIdentifier rawName)⟩
          type := ⟨normalizeColumnType rawType⟩
          isPrimaryKey := hasKwSeq lowerRemainder pkKw
          isNotNull := hasKwSeq lowerRemainder nnKw || hasKwSeq lowerRemainder pkKw
          isUnique := hasKwSeq lowerRemainder uqKw || hasKwSeq lowerRemainder pkKw }, n + 1)

/-! ### Table-level constraint matchers (anchored, inside a CREATE body)

The three anchored constraint regexes share the optional
`constraint <name> ` head; the parenthesised group is one or more
non-close-paren characters.  When the optional head matches but the core
fails, the engine backtracks to the empty head at the same anchored
position. -/

/-- At the head of `l`: a parenthesised group of one or more non-`)`
characters; returns (group, rest after the close paren). -/
def parenGroupHead : List Char → Option (List Char × List Char)
  | '(' :: rest =>
    let grp := rest.takeWhile (· ≠ ')')
    if 1 ≤ grp.length && grp.length < rest.length then
      some (grp, rest.drop (grp.length + 1))
    else none
  | _ => none

/-- Keyword words joined by mandatory whitespace (no trailing boundary,
matching the table-constraint regexes). -/
def matchKwSeqWs : List (List Char) → List Char → Option (List Char)
  | [], l => some l
  | [w], l => dropLitCI w l
  | w :: ws, l =>
    (dropLitCI w l).bind fun r => (dropWs1 r).bind (matchKwSeqWs ws)

/-- The optional `constraint\s+[^\s]+\s+` head. -/
def constraintHead (l : List Char) : Option (List Char) :=
  (dropLitCI "constraint".data l).bind fun r1 =>
  (dropWs1 r1).bind fun r2 =>
  (dropNonWs1 r2).bind fun r3 =>
  dropWs1 r3

/-- Core of a table-level constraint: keyword sequence, `\s*`, group. -/
def tableConstraintCore (kw : List (List Char)) (l : List Char) :
    Option (List Char × List Char) :=
  (matchKwSeqWs kw l).bind fun r =>
  parenGroupHead (dropWsStar r)

/-- Anchored table-level constraint match returning the full matched text
(the source feeds `match[0]` to `parseReferencedColumns`). -/
def tableConstraintMatch (kw : List (List Char)) (l : List Char) :
    Option (List Char) :=
  let viaHead :=
    (constraintHead l).bind fun l2 =>
    (tableConstraintCore kw l2).map fun p => p.2
  match viaHead with
  | some rest => some (l.take (l.length - rest.length))
  | none =>
    match tableConstraintCore kw l with
    | some p => some (l.take (l.length - p.2.length))
    | none => none

/-- The `foreign key (cols) references name (cols)` tail shared by the
inline table-level FK regex and the ALTER TABLE FK regex. -/
def fkTail (l : List Char) : Option (List Char × List Char × List Char) :=
  (matchKwSeqWs ["foreign".data, "key".data] l).bind fun r1 =>
  (parenGroupHead (dropWsStar r1)).bind fun p1 =>
  (dropWs1 p1.2).bind fun r3 =>
  (dropLitCI "references".data r3).bind fun r4 =>
  (dropWs1 r4).bind fun r5 =>
  let nm := r5.takeWhile (fun c => !isWsChar c && c ≠ '(')
  if nm.length = 0 then none
  else
    (parenGroupHead (dropWsStar (r5.drop nm.length))).map fun p3 =>
      (p1.1, nm, p3.1)

/-- Anchored inline FK match (optional `constraint <name>` head, then the
FK tail), case-insensitive on the original definition text. -/
def inlineFkMatch (l : List Char) : Option (List Char × List Char × List Char) :=
  match constraintHead l with
  | some l2 =>
    match fkTail l2 with
    | some r => some r
    | none => fkTail l
  | none => fkTail l

/-! ### `parseCreateTable` -/

/-- Last `)` of the statement followed only by whitespace; the greedy
`[\s\S]+` body must be nonempty.  An earlier close paren can never
qualify instead, because the later qualifying one would sit in its
suffix. -/
def bodyOf (rest : List Char) : Option (List Char) :=
  match rest.reverse.dropWhile isWsChar with
  | ')' :: bodyRev => if bodyRev.isEmpty then none else some bodyRev.reverse
  | _ => none

/-- Table name (`[^\s(]+`), optional whitespace, `(`, greedy body. -/
def nameParenBody (l : List Char) : Option (List Char × List Char) :=
  let nm := l.takeWhile (fun c => !isWsChar c && c ≠ '(')
  if nm.length = 0 then none
  else
    match dropWsStar (l.drop nm.length) with
    | '(' :: rest => (bodyOf rest).map fun body => (nm, body)
    | _ => none

/-- The optional `if\s+not\s+exists\s+` head. -/
def ineHead (l : List Char) : Option (List Char) :=
  (dropLitCI "if".data l).bind fun r1 =>
  (dropWs1 r1).bind fun r2 =>
  (dropLitCI "not".data r2).bind fun r3 =>
  (dropWs1 r3).bind fun r4 =>
  (dropLitCI "exists".data r4).bind fun r5 =>
  dropWs1 r5

/-- Attempt the CREATE TABLE regex at this exact position; the greedy
optional `if not exists` head backtracks to absent on failure. -/
def createAttempt (l : List Char) : Option (List Char × List Char) :=
  (dropLitCI "create".data l).bind fun r1 =>
  (dropWs1 r1).bind fun r2 =>
  (dropLitCI "table".data r2).bind fun r3 =>
  (dropWs1 r3).bind fun r4 =>
  match ineHead r4 with
  | some r5 =>
    match nameParenBody r5 with
    | some r => some r
    | none => nameParenBody r4
  | none => nameParenBody r4

/-- Leftmost (unanchored) match of the CREATE TABLE regex: groups 1
(raw table name) and 2 (body). -/
def matchCreateTable : List Char → Option (List Char × List Char)
  | [] => none
  | c :: rest =>
    match createAttempt (c :: rest) with
    | some r => some r
    | none => matchCreateTable rest

/-- Accumulator of the per-definition `forEach` inside `parseCreateTable`:
parsed columns, the two table-level constraint name sets, collected
foreign keys, and the fresh-id counter. -/
structure BodyAcc where
  columns : List Column
  pkNames : List (List Char)
  uniqueNames : List (List Char)
  fks : List ParsedForeignKey
  counter : Nat
deriving Repr, DecidableEq

/-- JS `Set.add` (insertion-ordered, duplicates ignored; only membership
is ever consumed). -/
def addToSet (s : List (List Char)) (x : List Char) : List (List Char) :=
  if s.contains x then s else s ++ [x]

def processDefinition (tableName : List Char) (acc : BodyAcc)
    (definition : List Char) : BodyAcc :=
  let lower := lowerL definition
  match tableConstraintMatch pkKw lower with
  | some m0 => { acc with pkNames := (parseReferencedColumns m0).foldl addToSet acc.pkNames }
  | none =>
  match tableConstraintMatch uqKw lower with
  | some m0 => { acc with uniqueNames := (parseReferencedColumns m0).foldl addToSet acc.uniqueNames }
  | none =>
  match inlineFkMatch definition with
  | some (g1, nm, g3) =>
    let fromColumns := (splitTopLevelComma g1).map fun x => lowerL (unquoteIdentifier x)
    let toColumns := (splitTopLevelComma g3).map fun x => lowerL (unquoteIdentifier x)
    let toTable := normalizeTableName nm
    if fromColumns.length = 1 && toColumns.length = 1 then
      { acc with fks := acc.fks ++ [{
          fromTableName := ⟨tableName⟩
          fromColumnName := ⟨fromColumns.headD []⟩
          toTableName := ⟨toTable⟩
          toColumnName := ⟨toColumns.headD []⟩ }] }
    else acc
  | none =>
    match parseColumnDefinition definition acc.counter with
    | (some col, n1) => { acc with columns := acc.columns ++ [col], counter := n1 }
    | (none, n1) => { acc with counter := n1 }

/-- The table-level constraint folding applied to each parsed column
(a logical OR with the inline flags; PK cascades NOT NULL and UNIQUE). -/
def foldConstraints (pkNames uniqueNames : List (List Char)) (column : Column) :
    Column :=
  let isPk := pkNames.contains column.name.data || column.isPrimaryKey
  let isUniq := uniqueNames.contains column.name.data || column.isUnique || isPk
  { column with
      isPrimaryKey := isPk
      isUnique := isUniq
      isNotNull := column.isNotNull || isPk }

def parseCreateTable (sql : List Char) (n : Nat) :
    Option (Table × List ParsedForeignKey) × Nat :=
  match matchCreateTable sql with
  | none => (none, n)
  | some (rawName, body) =>
    let tableName := normalizeTableName rawName
    let definitions := splitTopLevelComma body
    let acc := definitions.foldl (processDefinition tableName) ⟨[], [], [], [], n⟩
    let normalizedColumns := acc.columns.map (foldConstraints acc.pkNames acc.uniqueNames)
    (some ({ id := acc.counter
             name := ⟨tableName⟩
             columns := normalizedColumns
             position := ⟨0, 0⟩ }, acc.fks), acc.counter + 1)

/-! ### `parseAlterTableForeignKey` -/

/-- Attempt the ALTER TABLE FK regex at this exact position; the nested
optional `add [constraint <name>]` heads backtrack in order. -/
def alterAttempt (l : List Char) :
    Option (List Char × List Char × List Char × List Char) :=
  (dropLitCI "alter".data l).bind fun r1 =>
  (dropWs1 r1).bind fun r2 =>
  (dropLitCI "table".data r2).bind fun r3 =>
  (dropWs1 r3).bind fun r4 =>
  let nm := r4.takeWhile (fun c => !isWsChar c)
  if nm.length = 0 then none
  else
    (dropWs1 (r4.drop nm.length)).bind fun r5 =>
    let viaAdd :=
      (dropLitCI "add".data r5).bind fun r6 =>
      (dropWs1 r6).bind fun r7 =>
      match constraintHead r7 with
      | some r8 =>
        match fkTail r8 with
        | some t => some t
        | none => fkTail r7
      | none => fkTail r7
    match viaAdd with
    | some (g1, tnm, g3) => some (nm, g1, tnm, g3)
    | none => (fkTail r5).map fun (g1, tnm, g3) => (nm, g1, tnm, g3)

def matchAlterFk : List Char → Option (List Char × List Char × List Char × List Char)
  | [] => none
  | c :: rest =>
    match alterAttempt (c :: rest) with
    | some r => some r
    | none => matchAlterFk rest

def parseAlterTableForeignKey (sql : List Char) : Option ParsedForeignKey :=
  match matchAlterFk sql with
  | none => none
  | some (nm, g1, tnm, g3) =>
    let fromColumns := (splitTopLevelComma g1).map fun x => lowerL (unquoteIdentifier x)
    let toColumns := (splitTopLevelComma g3).map fun x => lowerL (unquoteIdentifier x)
    if fromColumns.length ≠ 1 || toColumns.length ≠ 1 then none
    else some {
      fromTableName := ⟨normalizeTableName nm⟩
      fromColumnName := ⟨fromColumns.headD []⟩
      toTableName := ⟨normalizeTableName tnm⟩
      toColumnName := ⟨toColumns.headD []⟩ }

/-! ### `buildTablePositions` and `buildRelations` -/

def buildTablePositions (tables : List Table) : List Table :=
  tables.enum.map fun p =>
    { p.2 with position :=
        ⟨Int.ofNat (100 + (p.1 % 4) * 360), Int.ofNat (100 + (p.1 / 4) * 280)⟩ }

def lowerStr (s : String) : String := ⟨lowerL s.data⟩

/-- JS `Map.set`: replace the value at an existing key in place, else
append (Maps built this way have unique keys, so replacing the first
matching entry is exact). -/
def mapSet (m : List (String × Table)) (k : String) (v : Table) :
    List (String × Table) :=
  match m with
  | [] => [(k, v)]
  | p :: rest => if p.1 = k then (k, v) :: rest else p :: mapSet rest k v

/-- JS `Map.get`. -/
def mapGet (m : List (String × Table)) (k : String) : Option Table :=
  (m.find? fun p => p.1 = k).map fun p => p.2

/-- The `tableByName` map: every table inserted in order, keyed by its
lowercased name; a later table with the same name overwrites an earlier
one. -/
def tableMapOf (tables : List Table) : List (String × Table) :=
  tables.foldl (fun m t => mapSet m (lowerStr t.name) t) []

def sameEdge (r : Relation) (ftid fcid ttid tcid : Id) : Bool :=
  r.fromTableId = ftid && r.fromColumnId = fcid &&
  r.toTableId = ttid && r.toColumnId = tcid

def buildRelationsStep (tableMap : List (String × Table))
    (acc : List Relation × Nat) (fk : ParsedForeignKey) : List Relation × Nat :=
  match mapGet tableMap (lowerStr fk.fromTableName) with
  | none => acc
  | some fromTable =>
  match mapGet tableMap (lowerStr fk.toTableName) with
  | none => acc
  | some toTable =>
  match fromTable.columns.find? (fun c => lowerStr c.name = lowerStr fk.fromColumnName) with
  | none => acc
  | some fromColumn =>
  match toTable.columns.find? (fun c => lowerStr c.name = lowerStr fk.toColumnName) with
  | none => acc
  | some toColumn =>
  if acc.1.any (fun r => sameEdge r fromTable.id fromColumn.id toTable.id toColumn.id) then
    acc
  else
    (acc.1 ++ [{ id := acc.2
                 fromTableId := fromTable.id
                 fromColumnId := fromColumn.id
                 toTableId := toTable.id
                 toColumnId := toColumn.id
                 type := if fromColumn.isUnique then "1:1" else "1:N" }], acc.2 + 1)

def buildRelations (tables : List Table) (foreignKeys : List ParsedForeignKey)
    (n : Nat) : List Relation × Nat :=
  foreignKeys.foldl (buildRelationsStep (tableMapOf tables)) ([], n)

/-! ### `parseSqlToSchema` -/

/-- Accumulator of the per-statement loop. -/
structure StmtAcc where
  tables : List Table
  fks : List ParsedForeignKey
  counter : Nat
deriving Repr, DecidableEq

def processStatement (acc : StmtAcc) (statement : List Char) : StmtAcc :=
  match parseCreateTable statement acc.counter with
  | (some tf, n1) =>
    { tables := acc.tables ++ [tf.1], fks := acc.fks ++ tf.2, counter := n1 }
  | (none, _) =>
    match parseAlterTableForeignKey statement with
    | some fk => { acc with fks := acc.fks ++ [fk] }
    | none => acc

/-- The cleaned statement list: comments stripped, trimmed, split on `;`,
each statement trimmed, empties discarded. -/
def statementsOfL (sql : List Char) : List (List Char) :=
  ((splitOnChar ';' (trimL (stripSqlComments sql))).map trimL).filter
    fun s => !s.isEmpty

def parseSqlToSchemaL (sql : List Char) : DatabaseSchema :=
  let cleaned := trimL (stripSqlComments sql)
  if cleaned.isEmpty then { tables := [], relations := [] }
  else
    let statements := statementsOfL sql
    let acc := statements.foldl processStatement ⟨[], [], 0⟩
    let positionedTables := buildTablePositions acc.tables
    { tables := positionedTables
      relations := (buildRelations positionedTables acc.fks acc.counter).1 }

def parseSqlToSchema (sql : String) : DatabaseSchema := parseSqlToSchemaL sql.data

def statementsOf (sql : String) : List (List Char) := statementsOfL sql.data

/-! ### The SQL generator

Modelled from the spec: the repository references `generatePostgreSQL`
from `client/src/lib/sql-generator.ts` (ExportModal.tsx imports it), but
that file is not present under src/.  The definitions below follow the
spec's §4.2 contract: per-table `CREATE TABLE` blocks in schema order with
columns in sequence order, ` NOT NULL` per flag, ` UNIQUE` per flag except
when implied by membership in the trailing `PRIMARY KEY (...)` clause
(emitted only when at least one column has `isPrimaryKey`), then one
`ALTER TABLE ... ADD CONSTRAINT ... FOREIGN KEY` statement per relation in
schema order, every identifier double-quoted, constraint names derived
deterministically from table/column names, and the relation `type` never
rendered. -/

/-- Join character lists with a separator (as JS `Array.join`). -/
def joinSep (sep : List Char) : List (List Char) → List Char
  | [] => []
  | [x] => x
  | x :: y :: ys => x ++ sep ++ joinSep sep (y :: ys)

def quoteIdentL (s : String) : List Char := '"' :: s.data ++ ['"']

/-- Modelled from the spec: one column line of a `CREATE TABLE` block
(two-space indent, quoted name, vocabulary type token, ` NOT NULL` per
flag, ` UNIQUE` per flag unless implied by PK membership). -/
def columnLineL (c : Column) : List Char :=
  "  ".data ++ quoteIdentL c.name ++ ' ' :: c.type.data
    ++ (if c.isNotNull then " NOT NULL".data else [])
    ++ (if c.isUnique && !c.isPrimaryKey then " UNIQUE".data else [])

/-- Modelled from the spec: the trailing table-level PRIMARY KEY clause. -/
def pkClauseL (t : Table) : List Char :=
  "  PRIMARY KEY (".data ++
    joinSep ", ".data ((t.columns.filter fun c => c.isPrimaryKey).map fun c =>
      quoteIdentL c.name) ++ [')']

/-- Modelled from the spec: the body of one `CREATE TABLE` statement
(everything but the trailing semicolon). -/
def createStmtCore (t : Table) : List Char :=
  let lines := t.columns.map columnLineL ++
    (if (t.columns.filter fun c => c.isPrimaryKey).isEmpty then []
     else [pkClauseL t])
  "CREATE TABLE ".data ++ quoteIdentL t.name ++ " (\n".data ++
    joinSep ",\n".data lines ++ "\n)".data

def findTableById (tables : List Table) (tid : Id) : Option Table :=
  tables.find? fun t => t.id = tid

def findColumnById (cols : List Column) (cid : Id) : Option Column :=
  cols.find? fun c => c.id = cid

/-- Modelled from the spec: the `ALTER TABLE` statement of one relation
(without the trailing semicolon); endpoints are resolved by id (never
dangling for importer outputs), the constraint name is derived
deterministically from the table/column names, and the relation `type`
is not rendered. -/
def alterStmtCore (schema : DatabaseSchema) (r : Relation) : Option (List Char) :=
  (findTableById schema.tables r.fromTableId).bind fun ft =>
  (findColumnById ft.columns r.fromColumnId).bind fun fc =>
  (findTableById schema.tables r.toTableId).bind fun tt =>
  (findColumnById tt.columns r.toColumnId).map fun tc =>
    "ALTER TABLE ".data ++ quoteIdentL ft.name ++ " ADD CONSTRAINT \"fk_".data ++
    ft.name.data ++ '_' :: fc.name.data ++ "\" FOREIGN KEY (".data ++
    quoteIdentL fc.name ++ ") REFERENCES ".data ++ quoteIdentL tt.name ++
    " (".data ++ quoteIdentL tc.name ++ [')']

/-- The statement list of the generated script, in emission order. -/
def generatedCores (schema : DatabaseSchema) : List (List Char) :=
  schema.tables.map createStmtCore ++ schema.relations.filterMap (alterStmtCore schema)

/-- Modelled from the spec: `generatePostgreSQL(schema)` — the statement
blocks, each terminated by `;`, joined by blank lines. -/
def generatePostgreSQLL (schema : DatabaseSchema) : List Char :=
  joinSep "\n\n".data ((generatedCores schema).map fun core => core ++ [';'])

def generatePostgreSQL (schema : DatabaseSchema) : String :=
  ⟨generatePostgreSQLL schema⟩

/-- The (name, type, flags) view of a column that the round-trip claim
compares (ids excluded). -/
def columnKey (c : Column) : String × String × Bool × Bool × Bool :=
  (c.name, c.type, c.isPrimaryKey, c.isNotNull, c.isUnique)

/-- The per-table view the round-trip claim compares. -/
def tableSummary (t : Table) : String × List (String × String × Bool × Bool × Bool) :=
  (t.name, t.columns.map columnKey)

def schemaSummary (S : DatabaseSchema) : List (String × List (String × String × Bool × Bool × Bool)) :=
  S.tables.map tableSummary

/-- The (fromTable, fromColumn, toTable, toColumn) name edge of one
relation, resolved by id. -/
def edgeKeyOf (S : DatabaseSchema) (r : Relation) : Option (String × String × String × String) :=
  (findTableById S.tables r.fromTableId).bind fun ft =>
  (findColumnById ft.columns r.fromColumnId).bind fun fc =>
  (findTableById S.tables r.toTableId).bind fun tt =>
  (findColumnById tt.columns r.toColumnId).map fun tc =>
    (ft.name, fc.name, tt.name, tc.name)

def edgeKeys (S : DatabaseSchema) : List (String × String × String × String) :=
  S.relations.filterMap (edgeKeyOf S)

/-- Lowercase-plain identifiers: nonempty strings of lowercase letters,
digits and underscores. -/
def plainChar (c : Char) : Bool :=
  ('a' ≤ c && c ≤ 'z') || ('0' ≤ c && c ≤ '9') || c = '_'

def plainIdent (s : String) : Bool := !s.data.isEmpty && s.data.all plainChar

/-- A schema whose table and column names are plain identifiers and whose
column names are unique per table. -/
def plainNamedSchema (S : DatabaseSchema) : Prop :=
  ∀ t ∈ S.tables, plainIdent t.name = true ∧
    (∀ c ∈ t.columns, plainIdent c.name = true) ∧
    (t.columns.map fun c => c.name).Nodup

instance (S : DatabaseSchema) : Decidable (plainNamedSchema S) :=
  inferInstanceAs (Decidable (∀ t ∈ S.tables, _ ∧ _ ∧ _))

/-! ### The schema store (`use-schema-store.ts`, richer variant)

The store's `present` schema together with the `connectingFrom` UI state,
acted on by the mutation callbacks.  `crypto.randomUUID()` for a new
relation is modelled by an id argument on the operation. -/

structure StoreState where
  schema : DatabaseSchema
  connectingFrom : Option (Id × Id)
deriving Repr, DecidableEq

inductive StoreOp where
  | addTable (t : Table)
  | updateTable (t : Table)
  | deleteTable (tableId : Id)
  | startConnecting (tableId columnId : Id)
  | cancelConnecting
  | finishConnecting (toTableId toColumnId : Id) (relType : String) (newId : Id)
  | importSchema (incoming : DatabaseSchema) (mergeMode : Bool)
  | updateRelationType (relationId : Id) (relType : String)
  | swapRelation (relationId : Id)
  | reorderColumns (tableId : Id) (startIndex endIndex : Nat)
  | deleteRelation (relationId : Id)
  | clear
deriving Repr

/-- The two-splice column move of `reorderColumns` (the UI only produces
in-range drag indexes; an out-of-range start index is modelled as a
no-op, the nearest total behaviour). -/
def moveColumn (columns : List Column) (startIndex endIndex : Nat) : List Column :=
  match columns.get? startIndex with
  | none => columns
  | some removed =>
    let without := columns.take startIndex ++ columns.drop (startIndex + 1)
    without.take endIndex ++ [removed] ++ without.drop endIndex

def applyOp (op : StoreOp) (s : StoreState) : StoreState :=
  match op with
  | .addTable t =>
    { s with schema := { s.schema with tables := s.schema.tables ++ [t] } }
  | .updateTable t =>
    { s with schema := { s.schema with
        tables := s.schema.tables.map fun u => if u.id = t.id then t else u } }
  | .deleteTable tid =>
    { s with schema := {
        tables := s.schema.tables.filter fun t => !(t.id = tid)
        relations := s.schema.relations.filter fun r =>
          !(r.fromTableId = tid) && !(r.toTableId = tid) } }
  | .startConnecting tid cid => { s with connectingFrom := some (tid, cid) }
  | .cancelConnecting => { s with connectingFrom := none }
  | .finishConnecting toT toC ty newId =>
    match s.connectingFrom with
    | none => s
    | some fp =>
      if fp.1 = toT && fp.2 = toC then { s with connectingFrom := none }
      else
        { schema := { s.schema with relations := s.schema.relations ++ [{
            id := newId
            fromTableId := fp.1
            fromColumnId := fp.2
            toTableId := toT
            toColumnId := toC
            type := ty }] }
          connectingFrom := none }
  | .importSchema incoming mergeMode =>
    if mergeMode then
      let maxExistingX := s.schema.tables.foldl (fun mx t => max mx t.position.x) 0
      let shifted := incoming.tables.map fun t =>
        { t with position := { x := t.position.x + maxExistingX + 360, y := t.position.y } }
      { s with schema := {
          tables := s.schema.tables ++ shifted
          relations := s.schema.relations ++ incoming.relations } }
    else { s with schema := incoming }
  | .updateRelationType rid ty =>
    { s with schema := { s.schema with
        relations := s.schema.relations.map fun r =>
          if r.id = rid then { r with type := ty } else r } }
  | .swapRelation rid =>
    { s with schema := { s.schema with
        relations := s.schema.relations.map fun r =>
          if r.id = rid then
            { r with
                fromTableId := r.toTableId
                fromColumnId := r.toColumnId
                toTableId := r.fromTableId
                toColumnId := r.fromColumnId }
          else r } }
  | .reorderColumns tid si ei =>
    match s.schema.tables.find? (fun t => t.id = tid) with
    | none => s
    | some _ =>
      { s with schema := { s.schema with
          tables := s.schema.tables.map fun t =>
            if t.id = tid then { t with columns := moveColumn t.columns si ei } else t } }
  | .deleteRelation rid =>
    { s with schema := { s.schema with
        relations := s.schema.relations.filter fun r => !(r.id = rid) } }
  | .clear => { s with schema := { tables := [], relations := [] } }

def initialState : StoreState := ⟨⟨[], []⟩, none⟩

/-- States reachable from the empty schema through arbitrary store
operations. -/
inductive Reachable : StoreState → Prop where
  | init : Reachable initialState
  | step (op : StoreOp) {s : StoreState} : Reachable s → Reachable (applyOp op s)

/-- A table with the given id is present. -/
def tableIdPresent (tables : List Table) (tid : Id) : Prop :=
  ∃ t ∈ tables, t.id = tid

instance (tables : List Table) (tid : Id) : Decidable (tableIdPresent tables tid) :=
  inferInstanceAs (Decidable (∃ t ∈ tables, t.id = tid))

/-- Every relation's endpoint tables are present in the schema. -/
def relationsClosed (schema : DatabaseSchema) : Prop :=
  ∀ r ∈ schema.relations,
    tableIdPresent schema.tables r.fromTableId ∧
    tableIdPresent schema.tables r.toTableId

instance (schema : DatabaseSchema) : Decidable (relationsClosed schema) :=
  inferInstanceAs (Decidable (∀ r ∈ schema.relations, _ ∧ _))

/-- The per-operation side conditions under which the store preserves
`relationsClosed`: an import must carry a schema that is itself closed
(as importer outputs are), and a pending connection may only be completed
while its source table still exists and onto an existing target table. -/
def opGuard (op : StoreOp) (s : StoreState) : Prop :=
  match op with
  | .importSchema incoming _ => relationsClosed incoming
  | .finishConnecting toT _ _ _ =>
    ∀ fp, s.connectingFrom = some fp →
      tableIdPresent s.schema.tables fp.1 ∧ tableIdPresent s.schema.tables toT
  | _ => True

/-- States reachable from the empty schema through guarded store
operations. -/
inductive GuardedReachable : StoreState → Prop where
  | init : GuardedReachable initialState
  | step (op : StoreOp) {s : StoreState} :
      GuardedReachable s → opGuard op s → GuardedReachable (applyOp op s)

/-- Both endpoints of a relation resolve into the given table list, and
the relation type records the uniqueness of the referencing column. -/
def relEndpointsOk (tables : List Table) (r : Relation) : Prop :=
  (∃ t ∈ tables, r.fromTableId = t.id ∧ ∃ c ∈ t.columns, r.fromColumnId = c.id ∧
      r.type = if c.isUnique then "1:1" else "1:N") ∧
  (∃ t ∈ tables, r.toTableId = t.id ∧ ∃ c ∈ t.columns, r.toColumnId = c.id)

/-! ## Theorems -/

/-! ### Map and relation-construction lemmas -/

theorem mapSet_mem {m : List (String × Table)} {k : String} {v : Table} :
    ∀ p ∈ mapSet m k v, p = (k, v) ∨ p ∈ m := by
  induction m with
  | nil => intro p hp; simp [mapSet] at hp; left; exact hp
  | cons q rest ih =>
    intro p hp
    by_cases hq : q.1 = k
    · simp [mapSet, hq] at hp
      rcases hp with h | h
      · left; exact h
      · right; exact List.mem_cons_of_mem _ h
    · simp [mapSet, hq] at hp
      rcases hp with h | h
      · right; simp [h]
      · rcases ih p h with h1 | h1
        · left; exact h1
        · right; exact List.mem_cons_of_mem _ h1

theorem tableMapOf_entry_mem {tables : List Table} :
    ∀ p ∈ tableMapOf tables, p.2 ∈ tables := by
  have key : ∀ (ts : List Table) (m : List (String × Table)),
      ∀ p ∈ ts.foldl (fun m t => mapSet m (lowerStr t.name) t) m,
        p.2 ∈ ts ∨ p ∈ m := by
    intro ts
    induction ts with
    | nil => intro m p hp; right; simpa using hp
    | cons t rest ih =>
      intro m p hp
      rcases ih (mapSet m (lowerStr t.name) t) p hp with h | h
      · left; exact List.mem_cons_of_mem _ h
      · rcases mapSet_mem p h with h1 | h1
        · left; simp [h1]
        · right; exact h1
  intro p hp
  rcases key tables [] p hp with h | h
  · exact h
  · simp at h

theorem mapGet_eq_some_mem {m : List (String × Table)} {k : String} {t : Table}
    (h : mapGet m k = some t) : (k, t) ∈ m := by
  unfold mapGet at h
  cases hf : m.find? (fun p => p.1 = k) with
  | none => rw [hf] at h; simp at h
  | some p =>
    rw [hf] at h
    simp at h
    have hmem := List.mem_of_find?_eq_some hf
    have hcond := List.find?_some hf
    simp at hcond
    have : p = (k, t) := by
      cases p with
      | mk a b => simp at hcond h; simp [hcond, h]
    rw [this] at hmem
    exact hmem

theorem mapGet_tableMapOf_mem {tables : List Table} {k : String} {t : Table}
    (h : mapGet (tableMapOf tables) k = some t) : t ∈ tables :=
  tableMapOf_entry_mem _ (mapGet_eq_some_mem h)

theorem buildRelationsStep_ok {tables : List Table}
    {acc : List Relation × Nat} {fk : ParsedForeignKey}
    (hacc : ∀ r ∈ acc.1, relEndpointsOk tables r) :
    ∀ r ∈ (buildRelationsStep (tableMapOf tables) acc fk).1, relEndpointsOk tables r := by
  intro r hr
  unfold buildRelationsStep at hr
  split at hr
  · exact hacc r hr
  next ft h1 =>
    split at hr
    · exact hacc r hr
    next tt h2 =>
      split at hr
      · exact hacc r hr
      next fc h3 =>
        split at hr
        · exact hacc r hr
        next tc h4 =>
          split at hr
          · exact hacc r hr
          · rcases List.mem_append.1 hr with h | h
            · exact hacc r h
            · simp at h
              subst h
              exact ⟨⟨ft, mapGet_tableMapOf_mem h1, rfl,
                fc, List.mem_of_find?_eq_some h3, rfl, rfl⟩,
                tt, mapGet_tableMapOf_mem h2, rfl,
                tc, List.mem_of_find?_eq_some h4, rfl⟩

theorem buildRelations_ok (tables : List Table) (fks : List ParsedForeignKey)
    (n : Nat) : ∀ r ∈ (buildRelations tables fks n).1, relEndpointsOk tables r := by
  have key : ∀ (fks : List ParsedForeignKey) (acc : List Relation × Nat),
      (∀ r ∈ acc.1, relEndpointsOk tables r) →
      ∀ r ∈ (fks.foldl (buildRelationsStep (tableMapOf tables)) acc).1,
        relEndpointsOk tables r := by
    intro fks
    induction fks with
    | nil => intro acc hacc; simpa using hacc
    | cons fk rest ih =>
      intro acc hacc
      exact ih _ (buildRelationsStep_ok hacc)
  exact key fks ([], n) (by simp)

theorem parse_relations_ok (sql : String) :
    ∀ r ∈ (parseSqlToSchema sql).relations,
      relEndpointsOk (parseSqlToSchema sql).tables r := by
  unfold parseSqlToSchema parseSqlToSchemaL
  by_cases h : (trimL (stripSqlComments sql.data)).isEmpty
  · simp [h]
  · simp only [h, if_neg, Bool.false_eq_true, if_false]
    exact buildRelations_ok _ _ _

theorem processStatement_skip {acc : StmtAcc} {st : List Char}
    (h1 : matchCreateTable st = none) (h2 : parseAlterTableForeignKey st = none) :
    processStatement acc st = acc := by
  unfold processStatement parseCreateTable
  simp only [h1, h2]

theorem foldl_processStatement_skip :
    ∀ (sts : List (List Char)) (acc : StmtAcc),
      (∀ st ∈ sts, matchCreateTable st = none ∧ parseAlterTableForeignKey st = none) →
      sts.foldl processStatement acc = acc := by
  intro sts
  induction sts with
  | nil => intro acc _; rfl
  | cons st rest ih =>
    intro acc h
    have h1 := h st (by simp)
    rw [List.foldl_cons, processStatement_skip h1.1 h1.2]
    exact ih acc fun s hs => h s (by simp [hs])

/-! ### Claim theorems -/

/-- C2: the importer is total by construction (every branch of the
embedding returns a `DatabaseSchema`, mirroring the absence of `throw` in
the source); input whose comment-stripped trim is empty yields the empty
schema, as do the concrete empty, whitespace-only and comment-only
inputs; and any input all of whose statements match neither the CREATE
TABLE nor the ALTER TABLE FK pattern is skipped wholesale, yielding the
empty schema rather than a failure. -/
theorem claim_C2 :
    (∀ sql : String, trimL (stripSqlComments sql.data) = [] →
      parseSqlToSchema sql = ⟨[], []⟩) ∧
    (∀ sql : String,
      (∀ st ∈ statementsOf sql,
        matchCreateTable st = none ∧ parseAlterTableForeignKey st = none) →
      parseSqlToSchema sql = ⟨[], []⟩) ∧
    parseSqlToSchema "" = ⟨[], []⟩ ∧
    parseSqlToSchema "   " = ⟨[], []⟩ ∧
    parseSqlToSchema "  -- just a comment" = ⟨[], []⟩ := by
  refine ⟨?_, ?_, by decide, by decide, by decide⟩
  · intro sql h
    unfold parseSqlToSchema parseSqlToSchemaL
    simp [h]
  · intro sql h
    unfold parseSqlToSchema parseSqlToSchemaL
    by_cases hc : (trimL (stripSqlComments sql.data)).isEmpty
    · simp [hc]
    · simp only [hc, Bool.false_eq_true, if_false]
      rw [show statementsOfL sql.data = statementsOf sql from rfl]
      rw [foldl_processStatement_skip _ _ h]
      rfl

/-- C2 witness: a malformed script whose statements match neither pattern
parses to the empty schema. -/
theorem claim_C2_witness :
    parseSqlToSchema "DROP TABLE users; SELECT 1" = ⟨[], []⟩ :=
  claim_C2.2.1 "DROP TABLE users; SELECT 1" (by decide)

/-- C4: every relation in any importer output points, on both endpoints,
at a table present in the output (by id) and at a column of that table
(by id); and the dangling-FK example (an ALTER TABLE FK whose referenced
table was never created) yields zero relations and no error. -/
theorem claim_C4 :
    (∀ (sql : String) (r : Relation), r ∈ (parseSqlToSchema sql).relations →
      (∃ t ∈ (parseSqlToSchema sql).tables, r.fromTableId = t.id ∧
        ∃ c ∈ t.columns, r.fromColumnId = c.id) ∧
      (∃ t ∈ (parseSqlToSchema sql).tables, r.toTableId = t.id ∧
        ∃ c ∈ t.columns, r.toColumnId = c.id)) ∧
    parseSqlToSchema "ALTER TABLE orders ADD FOREIGN KEY (user_id) REFERENCES users(id)" =
      ⟨[], []⟩ := by
  constructor
  · intro sql r hr
    obtain ⟨⟨t, ht, h1, c, hc, h2, _⟩, h3⟩ := parse_relations_ok sql r hr
    exact ⟨⟨t, ht, h1, c, hc, h2⟩, h3⟩
  · decide

/-- C4 witness: the single relation of a two-table import resolves to
present tables and columns. -/
theorem claim_C4_witness :
    (∃ t ∈ (parseSqlToSchema "create table users (id int primary key); create table orders (user_id int, foreign key (user_id) references users(id))").tables,
      (⟨4, 3, 2, 1, 0, "1:N"⟩ : Relation).fromTableId = t.id ∧
      ∃ c ∈ t.columns, (⟨4, 3, 2, 1, 0, "1:N"⟩ : Relation).fromColumnId = c.id) ∧
    (∃ t ∈ (parseSqlToSchema "create table users (id int primary key); create table orders (user_id int, foreign key (user_id) references users(id))").tables,
      (⟨4, 3, 2, 1, 0, "1:N"⟩ : Relation).toTableId = t.id ∧
      ∃ c ∈ t.columns, (⟨4, 3, 2, 1, 0, "1:N"⟩ : Relation).toColumnId = c.id) :=
  claim_C4.1 _ ⟨4, 3, 2, 1, 0, "1:N"⟩ (by decide)

/-- C5: a table-level foreign-key clause (inline in a CREATE TABLE body)
whose referencing or referenced column list does not have exactly one
entry contributes nothing to the parse accumulator; an ALTER TABLE FK
statement with a composite column list parses to `none`; and the concrete
composite example keeps its two tables but produces zero relations. -/
theorem claim_C5 :
    (∀ (tableName : List Char) (acc : BodyAcc) (definition g1 nm g3 : List Char),
      tableConstraintMatch pkKw (lowerL definition) = none →
      tableConstraintMatch uqKw (lowerL definition) = none →
      inlineFkMatch definition = some (g1, nm, g3) →
      (¬ ((splitTopLevelComma g1).map fun x => lowerL (unquoteIdentifier x)).length = 1 ∨
       ¬ ((splitTopLevelComma g3).map fun x => lowerL (unquoteIdentifier x)).length = 1) →
      processDefinition tableName acc definition = acc) ∧
    (∀ (sql nm g1 tnm g3 : List Char),
      matchAlterFk sql = some (nm, g1, tnm, g3) →
      (¬ ((splitTopLevelComma g1).map fun x => lowerL (unquoteIdentifier x)).length = 1 ∨
       ¬ ((splitTopLevelComma g3).map fun x => lowerL (unquoteIdentifier x)).length = 1) →
      parseAlterTableForeignKey sql = none) ∧
    (parseSqlToSchema "create table t (x int, y int); create table u (a int, b int, foreign key (a, b) references t(x, y)); alter table u add foreign key (a, b) references t(x, y)").tables.length = 2 ∧
    (parseSqlToSchema "create table t (x int, y int); create table u (a int, b int, foreign key (a, b) references t(x, y)); alter table u add foreign key (a, b) references t(x, y)").relations = [] := by
  refine ⟨?_, ?_, by decide, by decide⟩
  · intro tn acc d g1 nm g3 h1 h2 h3 h4
    unfold processDefinition
    simp only [h1, h2, h3]
    have hne : ¬ ((splitTopLevelComma g1).length = 1 ∧ (splitTopLevelComma g3).length = 1) := by
      intro hcon
      rcases h4 with h4 | h4
      · exact h4 (by simpa using hcon.1)
      · exact h4 (by simpa using hcon.2)
    split
    · next hcond =>
      exfalso
      simp at hcond
      exact hne hcond
    · rfl
  · intro sql nm g1 tnm g3 h1 h4
    have hne : ¬ ((splitTopLevelComma g1).length = 1 ∧ (splitTopLevelComma g3).length = 1) := by
      intro hcon
      rcases h4 with h4 | h4
      · exact h4 (by simpa using hcon.1)
      · exact h4 (by simpa using hcon.2)
    unfold parseAlterTableForeignKey
    simp only [h1]
    split
    · rfl
    · next hcond =>
      exfalso
      simp at hcond
      exact hne hcond

/-- C5 witness: the composite ALTER TABLE FK statement parses to `none`. -/
theorem claim_C5_witness :
    parseAlterTableForeignKey "alter table u add foreign key (a, b) references t(x, y)".data = none :=
  claim_C5.2.1 "alter table u add foreign key (a, b) references t(x, y)".data
    "u".data "a, b".data "t".data "x, y".data (by decide) (by decide)

/-- C6: table-level constraint folding is a logical OR with the inline
flags: a column named in the table-level PRIMARY KEY set ends with all of
isPrimaryKey/isUnique/isNotNull true, a column named in the table-level
UNIQUE set ends with isUnique true, no inline-true flag is ever reset,
and the concrete composite-PK example sets all three flags on both
columns. -/
theorem claim_C6 :
    (∀ (pkNames uniqueNames : List (List Char)) (c : Column),
      (pkNames.contains c.name.data = true →
        (foldConstraints pkNames uniqueNames c).isPrimaryKey = true ∧
        (foldConstraints pkNames uniqueNames c).isUnique = true ∧
        (foldConstraints pkNames uniqueNames c).isNotNull = true) ∧
      (uniqueNames.contains c.name.data = true →
        (foldConstraints pkNames uniqueNames c).isUnique = true) ∧
      (c.isPrimaryKey = true → (foldConstraints pkNames uniqueNames c).isPrimaryKey = true) ∧
      (c.isNotNull = true → (foldConstraints pkNames uniqueNames c).isNotNull = true) ∧
      (c.isUnique = true → (foldConstraints pkNames uniqueNames c).isUnique = true)) ∧
    parseSqlToSchema "CREATE TABLE t (a int, b int, PRIMARY KEY(a,b))" =
      ⟨[⟨2, "t", [⟨0, "a", "integer", true, true, true⟩,
                  ⟨1, "b", "integer", true, true, true⟩], ⟨100, 100⟩⟩], []⟩ := by
  constructor
  · intro P U c
    refine ⟨fun h => ⟨?_, ?_, ?_⟩, fun h => ?_, fun h => ?_, fun h => ?_, fun h => ?_⟩ <;>
      simp_all [foldConstraints]
  · decide

/-- C6 witness: folding a fresh all-false column named in the PK set
yields all three flags. -/
theorem claim_C6_witness :
    (foldConstraints ["a".data] [] ⟨0, "a", "text", false, false, false⟩).isPrimaryKey = true ∧
    (foldConstraints ["a".data] [] ⟨0, "a", "text", false, false, false⟩).isUnique = true ∧
    (foldConstraints ["a".data] [] ⟨0, "a", "text", false, false, false⟩).isNotNull = true :=
  (claim_C6.1 ["a".data] [] ⟨0, "a", "text", false, false, false⟩).1 (by decide)

/-- C8: every relation constructed by the importer carries
`type = "1:1"` exactly when its referencing (from) column's final
isUnique flag is true, and `type = "1:N"` exactly otherwise. -/
theorem claim_C8 :
    ∀ (sql : String) (r : Relation), r ∈ (parseSqlToSchema sql).relations →
      ∃ t ∈ (parseSqlToSchema sql).tables, r.fromTableId = t.id ∧
        ∃ c ∈ t.columns, r.fromColumnId = c.id ∧
          (r.type = "1:1" ↔ c.isUnique = true) ∧
          (r.type = "1:N" ↔ c.isUnique = false) := by
  intro sql r hr
  obtain ⟨⟨t, ht, h1, c, hc, h2, h3⟩, _⟩ := parse_relations_ok sql r hr
  refine ⟨t, ht, h1, c, hc, h2, ?_, ?_⟩ <;>
    cases hcu : c.isUnique <;> simp [hcu] at h3 <;> simp [h3]

/-- C8 witness: a FK from a UNIQUE column infers type "1:1". -/
theorem claim_C8_witness :
    ∃ t ∈ (parseSqlToSchema "create table a (x int unique, foreign key (x) references b(y)); create table b (y int)").tables,
      (⟨4, 1, 0, 3, 2, "1:1"⟩ : Relation).fromTableId = t.id ∧
      ∃ c ∈ t.columns, (⟨4, 1, 0, 3, 2, "1:1"⟩ : Relation).fromColumnId = c.id ∧
        ((⟨4, 1, 0, 3, 2, "1:1"⟩ : Relation).type = "1:1" ↔ c.isUnique = true) ∧
        ((⟨4, 1, 0, 3, 2, "1:1"⟩ : Relation).type = "1:N" ↔ c.isUnique = false) :=
  claim_C8 "create table a (x int unique, foreign key (x) references b(y)); create table b (y int)"
    ⟨4, 1, 0, 3, 2, "1:1"⟩ (by decide)

theorem mapGet_mapSet_same (m : List (String × Table)) (k : String) (v : Table) :
    mapGet (mapSet m k v) k = some v := by
  induction m with
  | nil => simp [mapSet, mapGet, List.find?]
  | cons p rest ih =>
    by_cases hp : p.1 = k
    · simp [mapSet, mapGet, List.find?, hp]
    · simp only [mapSet, hp, if_neg, ite_false]
      simpa [mapGet, List.find?, hp] using ih

theorem mapGet_mapSet_other (m : List (String × Table)) (k : String) (v : Table)
    (q : String) (hq : ¬ q = k) :
    mapGet (mapSet m k v) q = mapGet m q := by
  induction m with
  | nil =>
    have hkq : ¬ k = q := fun hh => hq hh.symm
    simp [mapSet, mapGet, List.find?, hkq]
  | cons p rest ih =>
    by_cases hp : p.1 = k
    · have hkq : ¬ k = q := fun hh => hq hh.symm
      have hpq : ¬ p.1 = q := by rw [hp]; exact hkq
      simp [mapSet, mapGet, List.find?, hp, hkq, hpq]
    · by_cases hpq : p.1 = q
      · simp [mapSet, mapGet, List.find?, hp, hpq, hq]
      · simp only [mapSet, hp, if_neg, ite_false]
        simp only [mapGet, List.find?, hpq] at ih ⊢
        simpa [hpq] using ih

theorem mapGet_mapSet (m : List (String × Table)) (k : String) (v : Table)
    (q : String) :
    mapGet (mapSet m k v) q = if q = k then some v else mapGet m q := by
  by_cases h : q = k
  · rw [if_pos h, h, mapGet_mapSet_same]
  · rw [if_neg h, mapGet_mapSet_other _ _ _ _ h]

theorem find?_eq_head?_filter {p : Table → Bool} :
    ∀ l : List Table, l.find? p = (l.filter p).head? := by
  intro l
  induction l with
  | nil => rfl
  | cons a tl ih =>
    cases h : p a
    · rw [List.find?_cons_of_neg _ (by simp [h]), List.filter_cons, h]
      simp only [Bool.false_eq_true, if_false]
      exact ih
    · rw [List.find?_cons_of_pos _ h, List.filter_cons, h]
      simp

theorem tableMapOf_get_rev (tables : List Table) (k : String) :
    mapGet (tableMapOf tables) k =
      tables.reverse.find? (fun t => lowerStr t.name = k) := by
  induction tables using List.reverseRecOn with
  | nil => rfl
  | append_singleton ts t ih =>
    rw [show tableMapOf (ts ++ [t]) = mapSet (tableMapOf ts) (lowerStr t.name) t from by
      simp [tableMapOf, List.foldl_append]]
    rw [List.reverse_append]
    simp only [List.reverse_singleton, List.singleton_append]
    by_cases hp : lowerStr t.name = k
    · rw [hp, mapGet_mapSet_same, List.find?_cons_of_pos _ (by simp [hp])]
    · rw [mapGet_mapSet_other _ _ _ _ (fun hh => hp hh.symm), ih,
        List.find?_cons_of_neg _ (by simp [hp])]

theorem tableMapOf_get (tables : List Table) (k : String) :
    mapGet (tableMapOf tables) k =
      (tables.filter fun t => lowerStr t.name = k).getLast? := by
  rw [tableMapOf_get_rev, find?_eq_head?_filter, List.filter_reverse,
    List.head?_reverse]

/-- C10: the `tableByName` lookup resolves every name to the table parsed
last with that name (later `Map.set` calls overwrite earlier ones), while
the output table list keeps all duplicate-named tables in statement
order; concretely, importing two tables named `t` and a FK referencing
`t(b)` keeps both tables and resolves the relation against the second
`t`, while a FK referencing `t(a)` (a column only of the first `t`)
resolves against the second `t`, misses, and is dropped. -/
theorem claim_C10 :
    (∀ (tables : List Table) (k : String),
      mapGet (tableMapOf tables) k = (tables.filter fun t => lowerStr t.name = k).getLast?) ∧
    parseSqlToSchema "create table t (a int); create table t (b int); create table u (c int, foreign key (c) references t(b))" =
      ⟨[⟨1, "t", [⟨0, "a", "integer", false, false, false⟩], ⟨100, 100⟩⟩,
        ⟨3, "t", [⟨2, "b", "integer", false, false, false⟩], ⟨460, 100⟩⟩,
        ⟨5, "u", [⟨4, "c", "integer", false, false, false⟩], ⟨820, 100⟩⟩],
       [⟨6, 5, 4, 3, 2, "1:N"⟩]⟩ ∧
    (parseSqlToSchema "create table t (a int); create table t (b int); create table u (c int, foreign key (c) references t(a))").relations = [] := by
  exact ⟨tableMapOf_get, by decide, by decide⟩

theorem tableIdPresent_append_left {ts us : List Table} {tid : Id}
    (h : tableIdPresent ts tid) : tableIdPresent (ts ++ us) tid := by
  obtain ⟨t, ht, hid⟩ := h
  exact ⟨t, List.mem_append.2 (Or.inl ht), hid⟩

theorem tableIdPresent_append_right {ts us : List Table} {tid : Id}
    (h : tableIdPresent us tid) : tableIdPresent (ts ++ us) tid := by
  obtain ⟨t, ht, hid⟩ := h
  exact ⟨t, List.mem_append.2 (Or.inr ht), hid⟩

/-- Mapping tables by any id-preserving function preserves id presence. -/
theorem tableIdPresent_map {ts : List Table} {tid : Id} (f : Table → Table)
    (hf : ∀ t ∈ ts, (f t).id = t.id) (h : tableIdPresent ts tid) :
    tableIdPresent (ts.map f) tid := by
  obtain ⟨t, ht, hid⟩ := h
  exact ⟨f t, List.mem_map.2 ⟨t, ht, rfl⟩, by rw [hf t ht, hid]⟩

/-- Each store operation, under its guard, preserves the closure of
relations over present tables. -/
theorem relationsClosed_preserved {s : StoreState} (op : StoreOp)
    (hg : opGuard op s) (h : relationsClosed s.schema) :
    relationsClosed (applyOp op s).schema := by
  cases op with
  | addTable t =>
    intro r hr
    simp only [applyOp] at hr ⊢
    obtain ⟨h1, h2⟩ := h r hr
    exact ⟨tableIdPresent_append_left h1, tableIdPresent_append_left h2⟩
  | updateTable t =>
    intro r hr
    simp only [applyOp] at hr ⊢
    obtain ⟨h1, h2⟩ := h r hr
    have hf : ∀ u ∈ s.schema.tables,
        ((fun u => if u.id = t.id then t else u) u).id = u.id := by
      intro u _
      by_cases he : u.id = t.id
      · simp [he]
      · simp [he]
    exact ⟨tableIdPresent_map _ hf h1, tableIdPresent_map _ hf h2⟩
  | deleteTable tid =>
    intro r hr
    simp only [applyOp] at hr ⊢
    have hr2 := List.mem_filter.1 hr
    obtain ⟨h1, h2⟩ := h r hr2.1
    have hcond := hr2.2
    simp at hcond
    constructor
    · obtain ⟨t, ht, hid⟩ := h1
      refine ⟨t, List.mem_filter.2 ⟨ht, ?_⟩, hid⟩
      simp [hid, hcond.1]
    · obtain ⟨t, ht, hid⟩ := h2
      refine ⟨t, List.mem_filter.2 ⟨ht, ?_⟩, hid⟩
      simp [hid, hcond.2]
  | startConnecting tid cid => exact h
  | cancelConnecting => exact h
  | finishConnecting toT toC ty newId =>
    cases hcf : s.connectingFrom with
    | none =>
      intro r hr
      simp only [applyOp, hcf] at hr ⊢
      exact h r hr
    | some fp =>
      intro r hr
      simp only [applyOp, hcf] at hr ⊢
      by_cases hsame : (decide (fp.1 = toT) && decide (fp.2 = toC)) = true
      · rw [if_pos hsame] at hr ⊢
        exact h r hr
      · rw [if_neg hsame] at hr ⊢
        rcases List.mem_append.1 hr with hmem | hmem
        · exact h r hmem
        · simp at hmem
          subst hmem
          exact hg fp hcf
  | importSchema incoming mergeMode =>
    intro r hr
    simp only [applyOp] at hr ⊢
    by_cases hm : mergeMode
    · rw [if_pos hm] at hr
      rw [if_pos hm]
      rcases List.mem_append.1 hr with hmem | hmem
      · obtain ⟨h1, h2⟩ := h r hmem
        exact ⟨tableIdPresent_append_left h1, tableIdPresent_append_left h2⟩
      · obtain ⟨h1, h2⟩ := hg r hmem
        have hshift : ∀ P, tableIdPresent incoming.tables P →
            tableIdPresent (incoming.tables.map fun t =>
              { t with position := {
                  x := t.position.x +
                    s.schema.tables.foldl (fun mx t => max mx t.position.x) 0 + 360
                  y := t.position.y } }) P := by
          intro P hP
          exact tableIdPresent_map _ (fun t _ => rfl) hP
        exact ⟨tableIdPresent_append_right (hshift _ h1),
          tableIdPresent_append_right (hshift _ h2)⟩
    · rw [if_neg hm] at hr
      rw [if_neg hm]
      exact hg r hr
  | updateRelationType rid ty =>
    intro r hr
    simp only [applyOp] at hr ⊢
    obtain ⟨r0, hr0, heq⟩ := List.mem_map.1 hr
    obtain ⟨h1, h2⟩ := h r0 hr0
    by_cases he : r0.id = rid
    · rw [if_pos he] at heq
      subst heq
      exact ⟨h1, h2⟩
    · rw [if_neg he] at heq
      subst heq
      exact ⟨h1, h2⟩
  | swapRelation rid =>
    intro r hr
    simp only [applyOp] at hr ⊢
    obtain ⟨r0, hr0, heq⟩ := List.mem_map.1 hr
    obtain ⟨h1, h2⟩ := h r0 hr0
    by_cases he : r0.id = rid
    · rw [if_pos he] at heq
      subst heq
      exact ⟨h2, h1⟩
    · rw [if_neg he] at heq
      subst heq
      exact ⟨h1, h2⟩
  | reorderColumns tid si ei =>
    cases hf : s.schema.tables.find? (fun t => t.id = tid) with
    | none =>
      intro r hr
      simp only [applyOp, hf] at hr ⊢
      exact h r hr
    | some t0 =>
      intro r hr
      simp only [applyOp, hf] at hr ⊢
      obtain ⟨h1, h2⟩ := h r hr
      have hfn : ∀ u ∈ s.schema.tables,
          ((fun t => if t.id = tid then { t with columns := moveColumn t.columns si ei } else t) u).id = u.id := by
        intro u _
        by_cases he : u.id = tid
        · simp [he]
        · simp [he]
      exact ⟨tableIdPresent_map _ hfn h1, tableIdPresent_map _ hfn h2⟩
  | deleteRelation rid =>
    intro r hr
    simp only [applyOp] at hr ⊢
    exact h r (List.mem_filter.1 hr).1
  | clear =>
    intro r hr
    simp only [applyOp] at hr
    simp at hr

/-- C9, counterexample: the claim's unguarded invariant is false —
`importSchema` in replace mode installs any incoming schema verbatim, so
importing a schema that contains a relation but no tables reaches a state
with a dangling relation. -/
theorem claim_C9_counterexample :
    Reachable (applyOp (.importSchema ⟨[], [⟨0, 1, 2, 3, 4, "1:N"⟩]⟩ false) initialState) ∧
    ¬ relationsClosed
      (applyOp (.importSchema ⟨[], [⟨0, 1, 2, 3, 4, "1:N"⟩]⟩ false) initialState).schema := by
  constructor
  · exact Reachable.step _ Reachable.init
  · decide

/-- C9 (amended): deleting a table removes every relation with it as an
endpoint; and every state reachable from the empty schema via the store
operations keeps all relations' endpoint tables present, provided each
`importSchema` imports a schema whose own relations are closed over its
tables (as importer outputs are) and each effective `finishConnecting`
fires only while its pending source table still exists and onto an
existing target table. -/
theorem claim_C9 :
    (∀ (s : StoreState) (tid : Id) (r : Relation),
      r ∈ (applyOp (.deleteTable tid) s).schema.relations →
        r ∈ s.schema.relations ∧ ¬ r.fromTableId = tid ∧ ¬ r.toTableId = tid) ∧
    (∀ s : StoreState, GuardedReachable s → relationsClosed s.schema) := by
  constructor
  · intro s tid r hr
    simp only [applyOp] at hr
    have hr2 := List.mem_filter.1 hr
    have hcond := hr2.2
    simp at hcond
    exact ⟨hr2.1, hcond.1, hcond.2⟩
  · intro s hreach
    induction hreach with
    | init => intro r hr; simp [initialState] at hr
    | step op hprev hg ih => exact relationsClosed_preserved op hg ih

/-- C9 witness: the deletion clause applied at a surviving relation, and
the invariant applied at a concrete guarded-reachable state. -/
theorem claim_C9_witness :
    ((⟨0, 1, 2, 3, 4, "1:N"⟩ : Relation) ∈
        (⟨⟨[], [⟨0, 1, 2, 3, 4, "1:N"⟩]⟩, none⟩ : StoreState).schema.relations ∧
      ¬ (⟨0, 1, 2, 3, 4, "1:N"⟩ : Relation).fromTableId = 9 ∧
      ¬ (⟨0, 1, 2, 3, 4, "1:N"⟩ : Relation).toTableId = 9) ∧
    relationsClosed (applyOp (.addTable ⟨7, "t", [], ⟨0, 0⟩⟩) initialState).schema := by
  constructor
  · exact claim_C9.1 ⟨⟨[], [⟨0, 1, 2, 3, 4, "1:N"⟩]⟩, none⟩ 9 ⟨0, 1, 2, 3, 4, "1:N"⟩ (by decide)
  · exact claim_C9.2 _ (GuardedReachable.step _ GuardedReachable.init (by trivial))

/-- C1, counterexample: the round trip as claimed fails for importer
outputs whose identifiers contain special characters or repeat within a
table.  First, a bracket-quoted column name containing `)` survives
import, but the generated `PRIMARY KEY ("a)b")` clause re-parses its
group only up to the first close paren, so the reparsed column loses its
isPrimaryKey/isUnique flags.  Second, with two same-named columns of
which only the first is a PRIMARY KEY, re-parsing folds the generated
table-level PK clause onto both, flipping the second column's flags. -/
theorem claim_C1_counterexample :
    (schemaSummary (parseSqlToSchema "create table t ([a)b] int primary key)") =
      [("t", [("a)b", "integer", true, true, true)])] ∧
     schemaSummary (parseSqlToSchema (generatePostgreSQL
        (parseSqlToSchema "create table t ([a)b] int primary key)"))) =
      [("t", [("a)b", "integer", false, true, false)])] ∧
     ¬ schemaSummary (parseSqlToSchema (generatePostgreSQL
        (parseSqlToSchema "create table t ([a)b] int primary key)"))) =
       schemaSummary (parseSqlToSchema "create table t ([a)b] int primary key)")) ∧
    (schemaSummary (parseSqlToSchema "create table t (a int primary key, a int)") =
      [("t", [("a", "integer", true, true, true), ("a", "integer", false, false, false)])] ∧
     ¬ schemaSummary (parseSqlToSchema (generatePostgreSQL
        (parseSqlToSchema "create table t (a int primary key, a int)"))) =
       schemaSummary (parseSqlToSchema "create table t (a int primary key, a int)")) := by
  exact ⟨⟨by decide, by decide, by decide⟩, by decide, by decide⟩

/-- C3, counterexample: the claim says `BIGINT` normalizes to `integer`,
but `bigint` is a member of the `columnTypes` vocabulary, so the
exact-membership step returns it before the `int` prefix rule is ever
consulted: `BIGINT` normalizes to `bigint`, not `integer`. -/
theorem claim_C3_counterexample :
    normalizeColumnType "BIGINT".data = "bigint".data ∧
    ¬ normalizeColumnType "BIGINT".data = "integer".data := by
  decide

/-- C3 (amended): `VARCHAR(255)` normalizes to `varchar`, `BIGINT`
normalizes to `bigint` (exact vocabulary membership, checked before the
prefix rules), `NUMERIC(10,2)` normalizes to `double precision`, and the
unrecognized `MONEY` normalizes to `text`. -/
theorem claim_C3 :
    normalizeColumnType "VARCHAR(255)".data = "varchar".data ∧
    normalizeColumnType "BIGINT".data = "bigint".data ∧
    normalizeColumnType "NUMERIC(10,2)".data = "double precision".data ∧
    normalizeColumnType "MONEY".data = "text".data := by
  decide

/-- C7: the double-quoted, unquoted, backtick-quoted and bracket-quoted
forms of `CREATE TABLE Users (Id uuid PRIMARY KEY)` all parse to the same
schema: one table named `users` with one column `id` of type `uuid` with
all three flags set. -/
theorem claim_C7 :
    parseSqlToSchema "CREATE TABLE \"Users\" (\"Id\" uuid PRIMARY KEY)" =
      ⟨[⟨1, "users", [⟨0, "id", "uuid", true, true, true⟩], ⟨100, 100⟩⟩], []⟩ ∧
    parseSqlToSchema "CREATE TABLE Users (Id uuid PRIMARY KEY)" =
      ⟨[⟨1, "users", [⟨0, "id", "uuid", true, true, true⟩], ⟨100, 100⟩⟩], []⟩ ∧
    parseSqlToSchema "CREATE TABLE `Users` (`Id` uuid PRIMARY KEY)" =
      ⟨[⟨1, "users", [⟨0, "id", "uuid", true, true, true⟩], ⟨100, 100⟩⟩], []⟩ ∧
    parseSqlToSchema "CREATE TABLE [Users] ([Id] uuid PRIMARY KEY)" =
      ⟨[⟨1, "users", [⟨0, "id", "uuid", true, true, true⟩], ⟨100, 100⟩⟩], []⟩ := by
  refine ⟨by decide, by decide, by decide, by decide⟩

end SqlDesign
